import Mathlib

/-!
Shallow embedding of `streamlit_app.py` (resume section extraction,
TF-IDF role ranking, and the Streamlit-session interview state machine),
together with theorems settling the specification claims.

String-level Python operations (`str.split`, `str.strip`, `str.lower`,
`str.startswith`) are modelled over `List Char` with ASCII semantics,
which covers every string literal appearing in the source and in the
claims.
-/

namespace CultureMonkey

/-- The ASCII whitespace characters stripped by Python's `str.strip()`. -/
def isPyWs (c : Char) : Bool :=
  c = ' ' || c = '\t' || c = '\n' || c = '\r' || c = '\x0b' || c = '\x0c'

/-- Python `str.strip()` on a character list: drop whitespace at both ends. -/
def pyStripL (cs : List Char) : List Char :=
  ((cs.dropWhile isPyWs).reverse.dropWhile isPyWs).reverse

/-- Python `str.strip()` on a `String`. -/
def pyStrip (s : String) : String :=
  String.mk (pyStripL s.data)

/-- ASCII lower-casing of one character, as Python `str.lower()` does on ASCII. -/
def lowerChar (c : Char) : Char :=
  if 'A' ≤ c ∧ c ≤ 'Z' then Char.ofNat (c.toNat + 32) else c

/-- Python `str.lower()` over a character list (ASCII fragment). -/
def pyLower (cs : List Char) : List Char :=
  cs.map lowerChar

/-- Helper for `pySplitNl`: accumulate the current line (reversed). -/
def pySplitNlGo : List Char → List Char → List (List Char)
  | [], acc => [acc.reverse]
  | c :: rest, acc =>
    if c = '\n' then acc.reverse :: pySplitNlGo rest []
    else pySplitNlGo rest (c :: acc)

/-- Python `text.split("\n")`: keeps empty pieces; `"".split("\n") = [""]`. -/
def pySplitNl (cs : List Char) : List (List Char) :=
  pySplitNlGo cs []

/-- Join a list of lines with `"\n"`, as Python `"\n".join(lines)`. -/
def joinNl : List (List Char) → List Char
  | [] => []
  | [l] => l
  | l :: ls => l ++ '\n' :: joinNl ls

end CultureMonkey

namespace CultureMonkey

/-! ### SectionExtractor: `extract_resume_details` (streamlit_app.py lines 30-50) -/

/-- The `summary_sections` table of `extract_resume_details`, in Python dict
insertion order. -/
def summary_sections : List (String × List String) :=
  [("Skills", ["Skills", "Technical Skills", "Core Competencies"]),
   ("Achievements", ["Achievements", "Accomplishments", "Key Highlights"]),
   ("Experience", ["Experience", "Work Experience", "Professional Experience"]),
   ("Projects", ["Projects", "Key Projects", "Academic Projects"])]

/-- The header test of the inner loop: the first section (in table order) one of
whose keywords is a case-insensitive prefix of the (already stripped) line. -/
def headerOf (stripped : List Char) : Option String :=
  (summary_sections.find? fun p =>
    p.2.any fun kw => (pyLower kw.data).isPrefixOf (pyLower stripped)).map Prod.fst

/-- Accumulated per-section line lists, keyed in table order. -/
def initInfo : List (String × List (List Char)) :=
  summary_sections.map fun p => (p.1, [])

/-- Append an accumulated line to the entry of section `sec`. -/
def appendLine (info : List (String × List (List Char))) (sec : String)
    (l : List Char) : List (String × List (List Char)) :=
  info.map fun p => if p.1 = sec then (p.1, p.2 ++ [l]) else p

/-- One iteration of the `for line in lines` loop of `extract_resume_details`:
strip the line; if it matches a section header set the cursor (the header line
itself is not accumulated); otherwise accumulate it when a cursor is active. -/
def extractStep (st : Option String × List (String × List (List Char)))
    (line : List Char) : Option String × List (String × List (List Char)) :=
  let s := pyStripL line
  match headerOf s with
  | some sec => (some sec, st.2)
  | none =>
    match st.1 with
    | some cur => (st.1, appendLine st.2 cur s)
    | none => st

/-- The whole scan loop of `extract_resume_details`. -/
def extractFold (lines : List (List Char))
    (st : Option String × List (String × List (List Char))) :
    Option String × List (String × List (List Char)) :=
  lines.foldl extractStep st

/-- The dict comprehension
`{key: "\n".join(value) for key, value in extracted_info.items() if value}`. -/
def formattedOutput (info : List (String × List (List Char))) :
    List (String × String) :=
  info.filterMap fun p =>
    if p.2 = [] then none else some (p.1, String.mk (joinNl p.2))

/-- `extract_resume_details` returns either a section map (as an ordered
association list, Python dict insertion order) or the no-data sentinel string. -/
inductive ExtractResult where
  | sections (m : List (String × String)) : ExtractResult
  | sentinel (msg : String) : ExtractResult
deriving DecidableEq

/-- The sentinel string of `extract_resume_details`. -/
def noDataMsg : String :=
  "No structured data found. Please label resume sections clearly."

/-- `extract_resume_details(text)` (streamlit_app.py lines 30-50). -/
def extract_resume_details (text : String) : ExtractResult :=
  let lines := pySplitNl text.data
  let res := extractFold lines (none, initInfo)
  let formatted := formattedOutput res.2
  if formatted = [] then .sentinel noDataMsg else .sections formatted

/-! ### InterviewSession: the `st.session_state` machine (streamlit_app.py
lines 148-157 and 203-225) -/

/-- Conversation-log speakers. -/
inductive Speaker where
  | Interviewer : Speaker
  | Candidate : Speaker
deriving DecidableEq

/-- The session-state fields the interview logic touches:
`st.session_state.conversation`, `.role`, `.current_question`, `.transcripts`. -/
structure SessionState where
  conversation : List (Speaker × String)
  role : Option String
  current_question : Option String
  transcripts : List String
deriving DecidableEq

/-- The state after the `if "..." not in st.session_state` initialisation block
(lines 148-157). -/
def initState : SessionState :=
  { conversation := [], role := none, current_question := none, transcripts := [] }

/-- Python truthiness of `st.session_state.get("current_question")` (and of
`selected_role`): `None` and the empty string are falsy. -/
def pyTruthy : Option String → Bool
  | none => false
  | some s => s ≠ ""

/-- The `▶️ Start Interview` button handler (lines 203-210): guarded by
`if selected_role:`; resets the conversation, stores the question list in
`transcripts`, and pops its head into `current_question` when non-empty.
When the question list is empty nothing touches `current_question`, so a
pending question from a previous interview survives. -/
def startInterview (selected_role : String) (qs : List String)
    (s : SessionState) : SessionState :=
  if selected_role = "" then s
  else
    match qs with
    | [] =>
      { s with role := some selected_role, conversation := [], transcripts := [] }
    | q :: rest =>
      { s with
          role := some selected_role
          conversation := [(Speaker.Interviewer, q)]
          transcripts := rest
          current_question := some q }

/-- The `📤 Submit Response` button handler (lines 212-225): reachable only
when `st.session_state.get("current_question")` is truthy; an answer whose
`strip()` is empty only warns; otherwise the raw answer is logged and the next
question (if any) is popped, else `current_question` is cleared. -/
def submitAnswer (answer : String) (s : SessionState) : SessionState :=
  if pyTruthy s.current_question then
    if pyStrip answer = "" then s
    else
      match s.transcripts with
      | [] =>
        { s with
            conversation := s.conversation ++ [(Speaker.Candidate, answer)]
            current_question := none }
      | q :: rest =>
        { s with
            conversation :=
              s.conversation ++ [(Speaker.Candidate, answer), (Speaker.Interviewer, q)]
            transcripts := rest
            current_question := some q }
  else s

/-- Fold a list of answers through `submitAnswer`. -/
def runSubmits (answers : List String) (s : SessionState) : SessionState :=
  answers.foldl (fun st a => submitAnswer a st) s

/-- The spec's `Completed` state: no pending question and an empty queue. -/
def Completed (s : SessionState) : Prop :=
  s.current_question = none ∧ s.transcripts = []

/-- The log `[(I,q1),(C,a1),(I,q2),(C,a2),...]` produced by a full interview
over questions `qs` with answers `as`. -/
def interviewLog : List String → List String → List (Speaker × String)
  | q :: qs, a :: as =>
    (Speaker.Interviewer, q) :: (Speaker.Candidate, a) :: interviewLog qs as
  | _, _ => []

/-- The log appended after an answer list `as` is submitted against a pending
question with remaining queue `qs` (the pending question is already logged). -/
def contLog : List String → List String → List (Speaker × String)
  | _, [] => []
  | queue, a :: as =>
    (Speaker.Candidate, a) ::
      match queue with
      | [] => []
      | q :: qs => (Speaker.Interviewer, q) :: contLog qs as

/-- The other speaker. -/
def otherSpeaker : Speaker → Speaker
  | .Interviewer => .Candidate
  | .Candidate => .Interviewer

/-- `altFrom e l`: the speakers of `l` are `e`, `otherSpeaker e`, `e`, ... -/
def altFrom : Speaker → List (Speaker × String) → Bool
  | _, [] => true
  | e, x :: xs => (x.1 = e) && altFrom (otherSpeaker e) xs

/-- The speaker expected at position `n` of a log that alternates from `e`. -/
def speakerAt (e : Speaker) (n : ℕ) : Speaker :=
  if n % 2 = 0 then e else otherSpeaker e

/-- Whether the most recent log entry is from the Interviewer. -/
def lastIsInterviewer (l : List (Speaker × String)) : Bool :=
  match l.getLast? with
  | some x => x.1 = Speaker.Interviewer
  | none => false

/-- States reachable from `initState` by arbitrary `startInterview` /
`submitAnswer` calls. -/
inductive Reachable : SessionState → Prop where
  | init : Reachable initState
  | step_start (role : String) (qs : List String) {s : SessionState} :
      Reachable s → Reachable (startInterview role qs s)
  | step_submit (a : String) {s : SessionState} :
      Reachable s → Reachable (submitAnswer a s)

/-- States reachable from `initState` when every `startInterview` call supplies
a non-empty question list whose questions are all non-empty strings
(`submitAnswer` calls are unrestricted: invalid ones are no-ops). -/
inductive ReachableGood : SessionState → Prop where
  | init : ReachableGood initState
  | step_start (role : String) (qs : List String) {s : SessionState} :
      ReachableGood s → qs ≠ [] → (∀ q ∈ qs, q ≠ "") →
      ReachableGood (startInterview role qs s)
  | step_submit (a : String) {s : SessionState} :
      ReachableGood s → ReachableGood (submitAnswer a s)

/-! ### SimilarityRanker: `match_resume_to_roles` (streamlit_app.py lines 80-91)

The call `TfidfVectorizer(stop_words="english")` / `fit_transform` /
`cosine_similarity` is embedded with scikit-learn's documented semantics:
lower-case, tokenize with the default pattern `(?u)\b\w\w+\b` (maximal runs of
word characters of length at least two; ASCII fragment here), drop English
stop words, raise `ValueError` when the resulting vocabulary is empty,
otherwise weight counts by the smooth idf `ln((1+n)/(1+df)) + 1`, l2-normalise
each row, and score with cosine similarity (`0` against a zero vector). -/

/-- ASCII word characters of the regex class `\w`. -/
def isWordChar (c : Char) : Bool :=
  ('a' ≤ c && c ≤ 'z') || ('A' ≤ c && c ≤ 'Z') || ('0' ≤ c && c ≤ '9') || c = '_'

/-- Helper for `tokenRuns`: accumulate the current word-character run
(reversed). -/
def tokenRunsGo : List Char → List Char → List (List Char)
  | [], acc => if acc = [] then [] else [acc.reverse]
  | c :: rest, acc =>
    if isWordChar c then tokenRunsGo rest (c :: acc)
    else if acc = [] then tokenRunsGo rest []
    else acc.reverse :: tokenRunsGo rest []

/-- Maximal runs of word characters. -/
def tokenRuns (cs : List Char) : List (List Char) :=
  tokenRunsGo cs []

/-- scikit-learn's default analyzer: lower-case, then keep the maximal
word-character runs of length at least two. -/
def tokensOf (s : String) : List String :=
  ((tokenRuns (pyLower s.data)).filter fun r => 2 ≤ r.length).map String.mk

/-- scikit-learn's frozen `ENGLISH_STOP_WORDS` list. -/
def englishStopWords : List String :=
  ["a", "about", "above", "across", "after", "afterwards", "again", "against",
   "all", "almost", "alone", "along", "already", "also", "although", "always",
   "am", "among", "amongst", "amoungst", "amount", "an", "and", "another",
   "any", "anyhow", "anyone", "anything", "anyway", "anywhere", "are",
   "around", "as", "at", "back", "be", "became", "because", "become",
   "becomes", "becoming", "been", "before", "beforehand", "behind", "being",
   "below", "beside", "besides", "between", "beyond", "bill", "both",
   "bottom", "but", "by", "call", "can", "cannot", "cant", "co", "con",
   "could", "couldnt", "cry", "de", "describe", "detail", "do", "done",
   "down", "due", "during", "each", "eg", "eight", "either", "eleven",
   "else", "elsewhere", "empty", "enough", "etc", "even", "ever", "every",
   "everyone", "everything", "everywhere", "except", "few", "fifteen",
   "fifty", "fill", "find", "fire", "first", "five", "for", "former",
   "formerly", "forty", "found", "four", "from", "front", "full", "further",
   "get", "give", "go", "had", "has", "hasnt", "have", "he", "hence", "her",
   "here", "hereafter", "hereby", "herein", "hereupon", "hers", "herself",
   "him", "himself", "his", "how", "however", "hundred", "i", "ie", "if",
   "in", "inc", "indeed", "interest", "into", "is", "it", "its", "itself",
   "keep", "last", "latter", "latterly", "least", "less", "ltd", "made",
   "many", "may", "me", "meanwhile", "might", "mill", "mine", "more",
   "moreover", "most", "mostly", "move", "much", "must", "my", "myself",
   "name", "namely", "neither", "never", "nevertheless", "next", "nine",
   "no", "nobody", "none", "noone", "nor", "not", "nothing", "now",
   "nowhere", "of", "off", "often", "on", "once", "one", "only", "onto",
   "or", "other", "others", "otherwise", "our", "ours", "ourselves", "out",
   "over", "own", "part", "per", "perhaps", "please", "put", "rather", "re",
   "same", "see", "seem", "seemed", "seeming", "seems", "serious", "several",
   "she", "should", "show", "side", "since", "sincere", "six", "sixty", "so",
   "some", "somehow", "someone", "something", "sometime", "sometimes",
   "somewhere", "still", "such", "system", "take", "ten", "than", "that",
   "the", "their", "them", "themselves", "then", "thence", "there",
   "thereafter", "thereby", "therefore", "therein", "thereupon", "these",
   "they", "thick", "thin", "third", "this", "those", "though", "three",
   "through", "throughout", "thru", "thus", "to", "together", "too", "top",
   "toward", "towards", "twelve", "twenty", "two", "un", "under", "until",
   "up", "upon", "us", "very", "via", "was", "we", "well", "were", "what",
   "whatever", "when", "whence", "whenever", "where", "whereafter",
   "whereas", "whereby", "wherein", "whereupon", "wherever", "whether",
   "which", "while", "whither", "who", "whoever", "whole", "whom", "whose",
   "why", "will", "with", "within", "without", "would", "yet", "you",
   "your", "yours", "yourself", "yourselves"]

/-- The analyzer output after stop-word removal: the terms counted by the
vectorizer. -/
def filteredTokens (s : String) : List String :=
  (tokensOf s).filter fun t => ¬ englishStopWords.contains t

/-- Lexicographic code-point order on character lists (Python string `<=`). -/
def lexLe : List Char → List Char → Bool
  | [], _ => true
  | _ :: _, [] => false
  | a :: as, b :: bs =>
    if a.toNat < b.toNat then true
    else if a.toNat = b.toNat then lexLe as bs
    else false

/-- Lexicographic code-point order on strings, as a Boolean. -/
def strLeB (a b : String) : Bool :=
  lexLe a.data b.data

/-- The fitted vocabulary: the distinct non-stop-word terms of the corpus, in
sorted order. `fit_transform` raises iff this is empty. -/
def vocabOf (corpus : List String) : List String :=
  ((corpus.map filteredTokens).flatten.dedup).insertionSort fun a b => strLeB a b

/-- Document frequency of a term across the corpus. -/
def docFreq (corpus : List String) (t : String) : ℕ :=
  (corpus.filter fun d => (filteredTokens d).contains t).length

/-- Smooth idf: `ln((1 + n) / (1 + df(t))) + 1` with `n` the corpus size. -/
noncomputable def idfOf (corpus : List String) (t : String) : ℝ :=
  Real.log (((corpus.length : ℝ) + 1) / ((docFreq corpus t : ℝ) + 1)) + 1

/-- A document's raw tf-idf row over the fitted vocabulary. -/
noncomputable def rawRow (corpus : List String) (d : String) : List ℝ :=
  (vocabOf corpus).map fun t => ((filteredTokens d).count t : ℝ) * idfOf corpus t

/-- Euclidean norm of a row. -/
noncomputable def l2norm (v : List ℝ) : ℝ :=
  Real.sqrt (v.map fun x => x ^ 2).sum

/-- l2 normalisation; a zero row is left unchanged (as in
`sklearn.preprocessing.normalize`). -/
noncomputable def normRow (v : List ℝ) : List ℝ :=
  if l2norm v = 0 then v else v.map fun x => x / l2norm v

/-- Dot product of two rows. -/
noncomputable def dotRow (u v : List ℝ) : ℝ :=
  (List.zipWith (fun a b => a * b) u v).sum

/-- A document's row of the matrix returned by `fit_transform`
(tf-idf weights, l2-normalised). -/
noncomputable def tfidfVec (corpus : List String) (d : String) : List ℝ :=
  normRow (rawRow corpus d)

/-- `sklearn.metrics.pairwise.cosine_similarity` of two rows: each row is
l2-normalised (zero rows stay zero) and the results are dotted. -/
noncomputable def cosineSim (u v : List ℝ) : ℝ :=
  dotRow (normRow u) (normRow v)

/-- The model of the `job_df` DataFrame: presence of the two required columns
plus the rows, each an optional `job_title` and optional
`job_description_text` (a `none` models a pandas missing value). -/
structure JobDF where
  hasTitle : Bool
  hasDesc : Bool
  rows : List (Option String × Option String)
deriving DecidableEq

/-- `job_df["job_description_text"].fillna("").tolist()`. -/
def descsOf (df : JobDF) : List String :=
  df.rows.map fun r => r.2.getD ""

/-- `job_df["job_title"].fillna("Unknown Role").tolist()`. -/
def rolesOf (df : JobDF) : List String :=
  df.rows.map fun r => r.1.getD "Unknown Role"

/-- `corpus = descriptions + [resume_text]`. -/
def corpusOf (resume_text : String) (df : JobDF) : List String :=
  descsOf df ++ [resume_text]

/-- `cosine_similarity(tfidf_matrix[-1], tfidf_matrix[:-1]).flatten()`:
the resume row scored against every description row. -/
noncomputable def simScores (resume_text : String) (df : JobDF) : List ℝ :=
  let corpus := corpusOf resume_text df
  (descsOf df).map fun d => cosineSim (tfidfVec corpus resume_text) (tfidfVec corpus d)

/-- The lexicographic order a stable ascending `argsort` realises on indices:
by score, ties by index. -/
def ascLex (s : List ℝ) (i j : ℕ) : Prop :=
  s.getD i 0 < s.getD j 0 ∨ (s.getD i 0 = s.getD j 0 ∧ i ≤ j)

/-- `numpy.argsort` on the score list, modelled as an ascending sort of the
index range with ties resolved by index. For arrays of fewer than 16 elements
numpy's default introsort runs as a plain insertion sort, which is stable and
agrees with this model exactly; for larger arrays numpy's quicksort is
documented as not stable, so the order of equal keys is
implementation-defined there, and theorems about that regime rely only on
the facts any correct ascending argsort satisfies (a permutation of all
indices, scores ascending along it), never on this model's tie order. -/
noncomputable def argsort (s : List ℝ) : List ℕ :=
  @List.insertionSort ℕ (ascLex s) (fun _ _ => Classical.propDecidable _)
    (List.range s.length)

/-- Python's `l[-k:]`: the last `min k (length l)` elements, except that
`l[-0:]` is all of `l`. -/
def lastSlice (k : ℕ) (l : List α) : List α :=
  if k = 0 then l else l.drop (l.length - k)

/-- `similarity_scores.argsort()[-top_n:][::-1]`. -/
noncomputable def topIndices (resume_text : String) (df : JobDF) (top_n : ℕ) :
    List ℕ :=
  (lastSlice top_n (argsort (simScores resume_text df))).reverse

/-- The `ValueError` message of `fit_transform` on an empty vocabulary. -/
def emptyVocabMsg : String :=
  "empty vocabulary; perhaps the documents only contain stop words"

/-- `match_resume_to_roles(resume_text, job_df, top_n)` (lines 80-91).
A raised exception is modelled as `Except.error`. -/
noncomputable def match_resume_to_roles (resume_text : String) (job_df : JobDF)
    (top_n : ℕ) : Except String (List String) :=
  if job_df.rows.isEmpty || !job_df.hasDesc || !job_df.hasTitle then .ok []
  else if vocabOf (corpusOf resume_text job_df) = [] then .error emptyVocabMsg
  else
    .ok ((topIndices resume_text job_df top_n).map fun i =>
      (rolesOf job_df).getD i "Unknown Role")

/-- Replace pandas missing values the way `match_resume_to_roles` does:
`fillna("Unknown Role")` on the title, `fillna("")` on the description. -/
def fillRow (r : Option String × Option String) : Option String × Option String :=
  (some (r.1.getD "Unknown Role"), some (r.2.getD ""))

/-- The `job_df` with both `fillna` substitutions applied to every row. -/
def fillDF (df : JobDF) : JobDF :=
  { df with rows := df.rows.map fillRow }

/-- A two-row corpus whose descriptions both equal the resume text
`"alpha beta"`: both similarity scores are equal, exposing the tie-breaking
order of `argsort()[-top_n:][::-1]`. -/
def dfPair : JobDF :=
  { hasTitle := true, hasDesc := true,
    rows := [(some "r0", some "alpha beta"), (some "r1", some "alpha beta")] }

/-- A one-row corpus with an empty description, used with an empty resume to
trigger the empty-vocabulary `ValueError` of `fit_transform`. -/
def dfDegenerate : JobDF :=
  { hasTitle := true, hasDesc := true, rows := [(some "r0", some "")] }

/-- A one-row corpus with an ordinary title and description. -/
def dfSingle : JobDF :=
  { hasTitle := true, hasDesc := true, rows := [(some "r0", some "beta")] }

/-- A one-row corpus whose single entry has a missing (`NaN`) `job_title`,
so ranking it must surface the `fillna` default `"Unknown Role"`. -/
def dfMissing : JobDF :=
  { hasTitle := true, hasDesc := true, rows := [(none, some "alpha")] }

/-! ## Helper lemmas: SectionExtractor -/

theorem extractFold_no_header (lines : List (List Char))
    (info : List (String × List (List Char)))
    (h : ∀ l ∈ lines, headerOf (pyStripL l) = none) :
    extractFold lines (none, info) = (none, info) := by
  induction lines with
  | nil => rfl
  | cons l rest ih =>
    have hstep : extractStep (none, info) l = (none, info) := by
      simp only [extractStep, h l (List.mem_cons_self l rest)]
    rw [extractFold, List.foldl_cons, hstep]
    exact ih fun x hx => h x (List.mem_cons_of_mem l hx)

theorem extractFold_keys (lines : List (List Char))
    (st : Option String × List (String × List (List Char))) :
    (extractFold lines st).2.map Prod.fst = st.2.map Prod.fst := by
  induction lines generalizing st with
  | nil => rfl
  | cons l rest ih =>
    rw [extractFold, List.foldl_cons, ← extractFold, ih]
    cases hh : headerOf (pyStripL l) with
    | some sec => simp [extractStep, hh]
    | none =>
      cases hc : st.1 with
      | some cur =>
        simp only [extractStep, hh, hc, appendLine, List.map_map]
        apply List.map_congr_left
        intro p _
        by_cases hp : p.1 = cur <;> simp [hp]
      | none => simp [extractStep, hh, hc]

/-! ## Helper lemmas: InterviewSession -/

theorem otherSpeaker_invol (e : Speaker) : otherSpeaker (otherSpeaker e) = e := by
  cases e <;> rfl

theorem speakerAt_zero (e : Speaker) : speakerAt e 0 = e := by
  simp [speakerAt]

theorem speakerAt_succ (e : Speaker) (n : ℕ) :
    speakerAt e (n + 1) = speakerAt (otherSpeaker e) n := by
  rcases Nat.mod_two_eq_zero_or_one n with h | h
  · have h1 : (n + 1) % 2 = 1 := by omega
    simp [speakerAt, h, h1]
  · have h0 : (n + 1) % 2 = 0 := by omega
    simp [speakerAt, h, h0, otherSpeaker_invol]

theorem startInterview_noRole (qs : List String) (s : SessionState) :
    startInterview "" qs s = s := by
  unfold startInterview
  rw [if_pos rfl]

theorem startInterview_nil (role : String) (h : role ≠ "") (s : SessionState) :
    startInterview role [] s =
      { s with role := some role, conversation := [], transcripts := [] } := by
  unfold startInterview
  rw [if_neg h]

theorem startInterview_cons (role : String) (h : role ≠ "") (q : String)
    (rest : List String) (s : SessionState) :
    startInterview role (q :: rest) s =
      { s with
          role := some role
          conversation := [(Speaker.Interviewer, q)]
          transcripts := rest
          current_question := some q } := by
  unfold startInterview
  rw [if_neg h]

theorem submitAnswer_noQuestion (a : String) (s : SessionState)
    (h : ¬ pyTruthy s.current_question = true) : submitAnswer a s = s := by
  unfold submitAnswer
  rw [if_neg h]

theorem submitAnswer_blank (a : String) (s : SessionState)
    (hq : pyTruthy s.current_question = true) (h : pyStrip a = "") :
    submitAnswer a s = s := by
  unfold submitAnswer
  rw [if_pos hq, if_pos h]

theorem submitAnswer_lastQuestion (a : String) (s : SessionState)
    (hq : pyTruthy s.current_question = true) (ha : ¬ pyStrip a = "")
    (ht : s.transcripts = []) :
    submitAnswer a s =
      { s with
          conversation := s.conversation ++ [(Speaker.Candidate, a)]
          current_question := none } := by
  unfold submitAnswer
  rw [if_pos hq, if_neg ha, ht]

theorem submitAnswer_nextQuestion (a : String) (s : SessionState)
    (hq : pyTruthy s.current_question = true) (ha : ¬ pyStrip a = "")
    (q : String) (rest : List String) (ht : s.transcripts = q :: rest) :
    submitAnswer a s =
      { s with
          conversation :=
            s.conversation ++ [(Speaker.Candidate, a), (Speaker.Interviewer, q)]
          transcripts := rest
          current_question := some q } := by
  unfold submitAnswer
  rw [if_pos hq, if_neg ha, ht]

theorem altFrom_append (e : Speaker) (l m : List (Speaker × String)) :
    altFrom e (l ++ m) = (altFrom e l && altFrom (speakerAt e l.length) m) := by
  induction l generalizing e with
  | nil => simp [altFrom, speakerAt_zero]
  | cons x xs ih =>
    rw [List.cons_append, altFrom, altFrom, ih, List.length_cons, speakerAt_succ,
      Bool.and_assoc]

theorem altFrom_concat_speaker (e : Speaker) (x : Speaker × String)
    (l : List (Speaker × String)) (h : altFrom e (l ++ [x]) = true) :
    x.1 = speakerAt e l.length := by
  rw [altFrom_append] at h
  have h2 := (Bool.and_eq_true _ _).mp h |>.2
  simp [altFrom] at h2
  exact h2

theorem lastIsInterviewer_iff_odd (l : List (Speaker × String))
    (h : altFrom Speaker.Interviewer l = true) :
    lastIsInterviewer l = true ↔ l.length % 2 = 1 := by
  rcases List.eq_nil_or_concat l with rfl | ⟨l', x, hl⟩
  · simp [lastIsInterviewer]
  · rw [List.concat_eq_append] at hl
    subst hl
    have hx := altFrom_concat_speaker _ x l' h
    rw [lastIsInterviewer, List.getLast?_concat]
    rw [List.length_append, List.length_singleton]
    rcases Nat.mod_two_eq_zero_or_one l'.length with he | ho
    · have h1 : (l'.length + 1) % 2 = 1 := by omega
      simp only [h1]
      rw [hx]
      simp [speakerAt, he]
    · have h0 : (l'.length + 1) % 2 = 0 := by omega
      simp only [h0]
      rw [hx]
      simp [speakerAt, ho, otherSpeaker]

theorem reachableGood_inv (s : SessionState) (h : ReachableGood s) :
    altFrom Speaker.Interviewer s.conversation = true ∧
    (pyTruthy s.current_question = true ↔ s.conversation.length % 2 = 1) ∧
    (∀ q ∈ s.transcripts, q ≠ "") := by
  induction h with
  | init => simp [initState, pyTruthy, altFrom]
  | @step_start role qs s hr hne hq ih =>
    by_cases hrole : role = ""
    · rw [hrole, startInterview_noRole]
      exact ih
    · obtain ⟨q, rest, rfl⟩ : ∃ q rest, qs = q :: rest := by
        cases qs with
        | nil => exact absurd rfl hne
        | cons q rest => exact ⟨q, rest, rfl⟩
      rw [startInterview_cons role hrole]
      refine ⟨?_, ?_, ?_⟩
      · simp [altFrom, otherSpeaker]
      · simp only [pyTruthy]
        have : q ≠ "" := hq q (List.mem_cons_self q rest)
        simp [this]
      · exact fun q' hq' => hq q' (List.mem_cons_of_mem q hq')
  | @step_submit a s hr ih =>
    obtain ⟨h1, h2, h3⟩ := ih
    by_cases hcq : pyTruthy s.current_question = true
    · by_cases ha : pyStrip a = ""
      · rw [submitAnswer_blank a s hcq ha]
        exact ⟨h1, h2, h3⟩
      · have hodd : s.conversation.length % 2 = 1 := h2.mp hcq
        cases ht : s.transcripts with
        | nil =>
          rw [submitAnswer_lastQuestion a s hcq ha ht]
          refine ⟨?_, ?_, ?_⟩
          · rw [altFrom_append, h1, Bool.true_and]
            simp [speakerAt, hodd, altFrom, otherSpeaker]
          · simp only [pyTruthy, List.length_append, List.length_singleton]
            constructor
            · intro hf
              exact absurd hf (by decide)
            · intro hpar
              omega
          · intro q' hq'
            exact absurd hq' (by simp [ht])
        | cons q rest =>
          rw [submitAnswer_nextQuestion a s hcq ha q rest ht]
          refine ⟨?_, ?_, ?_⟩
          · rw [altFrom_append, h1, Bool.true_and]
            simp [speakerAt, hodd, altFrom, otherSpeaker]
          · have hqne : q ≠ "" := h3 q (by rw [ht]; exact List.mem_cons_self q rest)
            simp only [pyTruthy, List.length_append]
            simp [hqne]
            omega
          · intro q' hq'
            exact h3 q' (by rw [ht]; exact List.mem_cons_of_mem q hq')
    · rw [submitAnswer_noQuestion a s hcq]
      exact ⟨h1, h2, h3⟩

theorem runSubmits_nil (s : SessionState) : runSubmits [] s = s := rfl

theorem runSubmits_cons (a : String) (as : List String) (s : SessionState) :
    runSubmits (a :: as) s = runSubmits as (submitAnswer a s) := rfl

theorem runSubmits_pending (answers : List String) :
    ∀ (queue : List String) (s : SessionState) (q : String),
      s.current_question = some q → q ≠ "" → s.transcripts = queue →
      (∀ q' ∈ queue, q' ≠ "") → (∀ a ∈ answers, pyStrip a ≠ "") →
      answers.length = queue.length + 1 →
      runSubmits answers s =
        { conversation := s.conversation ++ contLog queue answers,
          role := s.role, current_question := none, transcripts := [] } := by
  induction answers with
  | nil =>
    intro queue s q _ _ _ _ _ hlen
    exact absurd hlen (by simp)
  | cons a as ih =>
    intro queue s q hcq hq ht hqueue hans hlen
    have hcqt : pyTruthy s.current_question = true := by
      rw [hcq]
      simp [pyTruthy, hq]
    have ha : ¬ pyStrip a = "" := hans a (List.mem_cons_self a as)
    cases queue with
    | nil =>
      have has : as = [] := by
        simp at hlen
        exact hlen
      rw [runSubmits_cons, submitAnswer_lastQuestion a s hcqt ha ht, has,
        runSubmits_nil, contLog, ht]
    | cons q2 rest =>
      rw [runSubmits_cons, submitAnswer_nextQuestion a s hcqt ha q2 rest ht]
      rw [ih rest _ q2 rfl (hqueue q2 (List.mem_cons_self q2 rest)) rfl
        (fun q' hq' => hqueue q' (List.mem_cons_of_mem q2 hq'))
        (fun x hx => hans x (List.mem_cons_of_mem a hx))
        (by simp at hlen; omega)]
      rw [contLog]
      simp

theorem contLog_cons_eq (qs : List String) :
    ∀ (as : List String) (a : String), as.length = qs.length →
      contLog qs (a :: as) = (Speaker.Candidate, a) :: interviewLog qs as := by
  induction qs with
  | nil =>
    intro as a hlen
    have : as = [] := List.length_eq_zero.mp (by simpa using hlen)
    subst this
    rfl
  | cons q qs ih =>
    intro as a hlen
    cases as with
    | nil => exact absurd hlen (by simp)
    | cons a2 as2 =>
      rw [contLog, interviewLog, ih as2 a2 (by simpa using hlen)]

theorem interviewLog_length (qs : List String) :
    ∀ as : List String, as.length = qs.length →
      (interviewLog qs as).length = 2 * qs.length := by
  induction qs with
  | nil =>
    intro as _
    simp [interviewLog]
  | cons q qs ih =>
    intro as hlen
    cases as with
    | nil => exact absurd hlen (by simp)
    | cons a as2 =>
      rw [interviewLog]
      simp only [List.length_cons, ih as2 (by simpa using hlen)]
      omega

theorem interviewLog_alternates (qs : List String) :
    ∀ as : List String,
      altFrom Speaker.Interviewer (interviewLog qs as) = true := by
  induction qs with
  | nil =>
    intro as
    cases as <;> rfl
  | cons q qs ih =>
    intro as
    cases as with
    | nil => rfl
    | cons a as2 =>
      rw [interviewLog]
      simp [altFrom, otherSpeaker, ih as2]

/-! ## Helper lemmas: SimilarityRanker -/

theorem ascLex_total (s : List ℝ) (i j : ℕ) : ascLex s i j ∨ ascLex s j i := by
  rcases lt_trichotomy (s.getD i 0) (s.getD j 0) with h | h | h
  · exact Or.inl (Or.inl h)
  · rcases Nat.le_total i j with hij | hij
    · exact Or.inl (Or.inr ⟨h, hij⟩)
    · exact Or.inr (Or.inr ⟨h.symm, hij⟩)
  · exact Or.inr (Or.inl h)

theorem ascLex_trans (s : List ℝ) (i j k : ℕ) (h1 : ascLex s i j)
    (h2 : ascLex s j k) : ascLex s i k := by
  rcases h1 with h1 | ⟨h1e, h1le⟩
  · rcases h2 with h2 | ⟨h2e, _⟩
    · exact Or.inl (h1.trans h2)
    · exact Or.inl (h2e ▸ h1)
  · rcases h2 with h2 | ⟨h2e, h2le⟩
    · exact Or.inl (h1e ▸ h2)
    · exact Or.inr ⟨h1e.trans h2e, h1le.trans h2le⟩

theorem argsort_perm (s : List ℝ) : (argsort s).Perm (List.range s.length) := by
  unfold argsort
  exact @List.perm_insertionSort ℕ (ascLex s) (fun _ _ => Classical.propDecidable _)
    (List.range s.length)

theorem argsort_length (s : List ℝ) : (argsort s).length = s.length := by
  rw [(argsort_perm s).length_eq, List.length_range]

theorem argsort_sorted (s : List ℝ) : List.Sorted (ascLex s) (argsort s) := by
  haveI : IsTotal ℕ (ascLex s) := ⟨ascLex_total s⟩
  haveI : IsTrans ℕ (ascLex s) := ⟨ascLex_trans s⟩
  unfold argsort
  exact @List.sorted_insertionSort ℕ (ascLex s) (fun _ _ => Classical.propDecidable _)
    _ _ (List.range s.length)

theorem argsort_mem_lt (s : List ℝ) (i : ℕ) (h : i ∈ argsort s) : i < s.length := by
  have := (argsort_perm s).mem_iff.mp h
  exact List.mem_range.mp this

theorem argsort_one (s : List ℝ) (hlen : s.length = 1) : argsort s = [0] := by
  rw [argsort, hlen]
  have hr : List.range 1 = [0] := rfl
  rw [hr]
  simp only [List.insertionSort, List.orderedInsert]

theorem argsort_two (s : List ℝ) (hlen : s.length = 2) (h : ascLex s 0 1) :
    argsort s = [0, 1] := by
  rw [argsort, hlen]
  have hr : List.range 2 = [0, 1] := rfl
  rw [hr]
  simp only [List.insertionSort, List.orderedInsert]
  rw [if_pos h]

theorem lastSlice_of_ge (k : ℕ) (l : List α) (h : l.length ≤ k) :
    lastSlice k l = l := by
  unfold lastSlice
  by_cases hk : k = 0
  · rw [if_pos hk]
  · rw [if_neg hk]
    have : l.length - k = 0 := by omega
    rw [this, List.drop_zero]

theorem lastSlice_sublist (k : ℕ) (l : List α) : (lastSlice k l).Sublist l := by
  unfold lastSlice
  by_cases hk : k = 0
  · rw [if_pos hk]
  · rw [if_neg hk]
    exact List.drop_sublist _ l

theorem lastSlice_length (k : ℕ) (l : List α) (hk : k ≠ 0) :
    (lastSlice k l).length = min k l.length := by
  unfold lastSlice
  rw [if_neg hk, List.length_drop]
  omega

theorem simScores_length (resume : String) (df : JobDF) :
    (simScores resume df).length = df.rows.length := by
  simp [simScores, descsOf]

theorem topIndices_mem_lt (resume : String) (df : JobDF) (k i : ℕ)
    (h : i ∈ topIndices resume df k) : i < df.rows.length := by
  rw [topIndices, List.mem_reverse] at h
  have h2 : i ∈ argsort (simScores resume df) :=
    (lastSlice_sublist _ _).mem h
  have := argsort_mem_lt _ i h2
  rwa [simScores_length] at this

theorem topIndices_length (resume : String) (df : JobDF) (k : ℕ) (hk : k ≠ 0) :
    (topIndices resume df k).length = min k df.rows.length := by
  rw [topIndices, List.length_reverse, lastSlice_length _ _ hk, argsort_length,
    simScores_length]

theorem mem_vocabOf_iff (corpus : List String) (t : String) :
    t ∈ vocabOf corpus ↔ ∃ d ∈ corpus, t ∈ filteredTokens d := by
  unfold vocabOf
  rw [List.mem_insertionSort, List.mem_dedup, List.mem_flatten]
  constructor
  · rintro ⟨l, hl, htl⟩
    obtain ⟨d, hd, rfl⟩ := List.mem_map.mp hl
    exact ⟨d, hd, htl⟩
  · rintro ⟨d, hd, htd⟩
    exact ⟨filteredTokens d, List.mem_map_of_mem filteredTokens hd, htd⟩

theorem vocabOf_ne_nil_of_resume (resume : String) (df : JobDF)
    (h : filteredTokens resume ≠ []) : vocabOf (corpusOf resume df) ≠ [] := by
  obtain ⟨t, ht⟩ := List.exists_mem_of_ne_nil _ h
  have : t ∈ vocabOf (corpusOf resume df) :=
    (mem_vocabOf_iff _ t).mpr ⟨resume, by simp [corpusOf], ht⟩
  exact List.ne_nil_of_mem this

theorem vocabOf_nil_of_degenerate (corpus : List String)
    (h : ∀ d ∈ corpus, filteredTokens d = []) : vocabOf corpus = [] := by
  unfold vocabOf
  have hfl : (corpus.map filteredTokens).flatten = [] := by
    rw [List.flatten_eq_nil_iff]
    intro l hl
    obtain ⟨d, hd, rfl⟩ := List.mem_map.mp hl
    exact h d hd
  rw [hfl]
  rfl

theorem dotRow_zero_right (u v : List ℝ) (h : ∀ x ∈ v, x = 0) :
    dotRow u v = 0 := by
  unfold dotRow
  induction u generalizing v with
  | nil => simp
  | cons a u ih =>
    cases v with
    | nil => simp
    | cons b v =>
      rw [List.zipWith_cons_cons, List.sum_cons]
      rw [h b (List.mem_cons_self b v), mul_zero, zero_add]
      exact ih v fun x hx => h x (List.mem_cons_of_mem b hx)

theorem l2norm_zero_of_zeros (v : List ℝ) (h : ∀ x ∈ v, x = 0) :
    l2norm v = 0 := by
  unfold l2norm
  have : (v.map fun x => x ^ 2).sum = 0 := by
    apply List.sum_eq_zero
    intro x hx
    obtain ⟨y, hy, rfl⟩ := List.mem_map.mp hx
    rw [h y hy]
    ring
  rw [this, Real.sqrt_zero]

theorem normRow_zeros (v : List ℝ) (h : ∀ x ∈ v, x = 0) : normRow v = v := by
  unfold normRow
  rw [if_pos (l2norm_zero_of_zeros v h)]

theorem rawRow_degenerate (corpus : List String) (d : String)
    (h : filteredTokens d = []) :
    ∀ x ∈ rawRow corpus d, x = 0 := by
  intro x hx
  unfold rawRow at hx
  obtain ⟨t, _, rfl⟩ := List.mem_map.mp hx
  rw [h]
  simp

theorem cosineSim_degenerate_right (corpus : List String) (u : List ℝ)
    (d : String) (h : filteredTokens d = []) :
    cosineSim u (tfidfVec corpus d) = 0 := by
  unfold cosineSim tfidfVec
  have hz := rawRow_degenerate corpus d h
  rw [normRow_zeros _ hz, normRow_zeros _ hz]
  exact dotRow_zero_right _ _ hz

theorem descsOf_fill (df : JobDF) : descsOf (fillDF df) = descsOf df := by
  unfold descsOf fillDF fillRow
  rw [List.map_map]
  rfl

theorem rolesOf_fill (df : JobDF) : rolesOf (fillDF df) = rolesOf df := by
  unfold rolesOf fillDF fillRow
  rw [List.map_map]
  rfl

theorem extract_eq (text : String) :
    extract_resume_details text =
      (if formattedOutput (extractFold (pySplitNl text.data) (none, initInfo)).2 = []
       then ExtractResult.sentinel noDataMsg
       else ExtractResult.sections
         (formattedOutput (extractFold (pySplitNl text.data) (none, initInfo)).2)) :=
  rfl

theorem guard_false (df : JobDF) (hT : df.hasTitle = true) (hD : df.hasDesc = true)
    (hne : df.rows ≠ []) :
    ¬ ((df.rows.isEmpty || !df.hasDesc || !df.hasTitle) = true) := by
  simp [hT, hD, hne]

/-! ## Claim theorems -/

/-- C9 (confirmed): `extract("Skills\nPython\nGo\nExperience\n2 years at X")`
returns exactly `{"Skills": "Python\nGo", "Experience": "2 years at X"}`:
header lines set the cursor without being accumulated, and follow-up lines
accumulate under the current section joined with newlines. -/
theorem claim9_scenario :
    extract_resume_details "Skills\nPython\nGo\nExperience\n2 years at X" =
      .sections [("Skills", "Python\nGo"), ("Experience", "2 years at X")] := by
  decide

/-- C8 (confirmed): when no line of the resume starts (case-insensitively,
after stripping) with a recognized section header phrase,
`extract_resume_details` returns the no-data sentinel. -/
theorem claim8_no_header_sentinel (text : String)
    (h : ∀ l ∈ pySplitNl text.data, headerOf (pyStripL l) = none) :
    extract_resume_details text = .sentinel noDataMsg := by
  rw [extract_eq, extractFold_no_header _ _ h]
  rfl

/-- Witness for C8 at the concrete resume text `"hello\nthere"`. -/
theorem claim8_witness :
    (∀ l ∈ pySplitNl "hello\nthere".data, headerOf (pyStripL l) = none) ∧
    extract_resume_details "hello\nthere" = .sentinel noDataMsg :=
  ⟨by decide, claim8_no_header_sentinel "hello\nthere" (by decide)⟩

/-- C4 (counterexample): the claim says a section that matched a header but
accumulated only whitespace-only follow-up lines does not appear in the
result. On `"Skills\n "` the code strips the follow-up line `" "` to `""`,
accumulates it, and the key `"Skills"` appears with empty body text: the
comprehension `if value` keeps any section whose *list* of accumulated lines
is non-empty, regardless of their content. -/
theorem claim4_counterexample :
    extract_resume_details "Skills\n " = .sections [("Skills", "")] := by
  decide

/-- C4 (amended): every key of a non-sentinel result is one of the four
canonical section names and has at least one accumulated follow-up line, whose
newline-join is the reported body; the body itself may still be empty
(whitespace-only follow-up lines are kept after stripping). -/
theorem claim4_amended (text : String) (m : List (String × String))
    (h : extract_resume_details text = .sections m) :
    ∀ kv ∈ m, kv.1 ∈ summary_sections.map Prod.fst ∧
      ∃ ls, (kv.1, ls) ∈ (extractFold (pySplitNl text.data) (none, initInfo)).2 ∧
        ls ≠ [] ∧ kv.2 = String.mk (joinNl ls) := by
  rw [extract_eq] at h
  by_cases hf :
      formattedOutput (extractFold (pySplitNl text.data) (none, initInfo)).2 = []
  · rw [if_pos hf] at h
    exact absurd h (by simp)
  · rw [if_neg hf] at h
    have hm := (ExtractResult.sections.injEq _ _).mp h
    subst hm
    intro kv hkv
    obtain ⟨p, hp, hpe⟩ := List.mem_filterMap.mp hkv
    by_cases hp2 : p.2 = []
    · rw [if_pos hp2] at hpe
      exact absurd hpe (by simp)
    · rw [if_neg hp2] at hpe
      have hkv2 := Option.some.inj hpe
      subst hkv2
      constructor
      · have hmem : p.1 ∈ ((extractFold (pySplitNl text.data) (none, initInfo)).2).map Prod.fst :=
          List.mem_map_of_mem Prod.fst hp
        rw [extractFold_keys] at hmem
        have hkeys : (initInfo.map Prod.fst) = summary_sections.map Prod.fst := by decide
        rw [show ((none, initInfo) : Option String × List (String × List (List Char))).2 = initInfo from rfl, hkeys] at hmem
        exact hmem
      · refine ⟨p.2, ?_, hp2, rfl⟩
        simpa using hp

/-- Witness for C4's amended theorem at the concrete resume
`"Skills\nPython"`. -/
theorem claim4_witness :
    extract_resume_details "Skills\nPython" = .sections [("Skills", "Python")] ∧
    ∀ kv ∈ [("Skills", "Python")], kv.1 ∈ summary_sections.map Prod.fst ∧
      ∃ ls, (kv.1, ls) ∈ (extractFold (pySplitNl "Skills\nPython".data) (none, initInfo)).2 ∧
        ls ≠ [] ∧ kv.2 = String.mk (joinNl ls) :=
  ⟨by decide, claim4_amended "Skills\nPython" [("Skills", "Python")] (by decide)⟩

/-- C2 (counterexample): the claim says `start(role, [])` from any state
transitions to `Completed` with `currentQuestion` absent. Starting with
`["Q1"]`, leaving the question pending, and then starting again with `[]`
leaves `current_question = some "Q1"`: the Start-Interview handler only
assigns `current_question` when the new question list is non-empty, so the
stale pending question survives and the state is not `Completed`. -/
theorem claim2_counterexample :
    (startInterview "R2" [] (startInterview "R1" ["Q1"] initState)).current_question =
      some "Q1" ∧
    ¬ Completed (startInterview "R2" [] (startInterview "R1" ["Q1"] initState)) := by
  constructor
  · decide
  · intro hc
    have := hc.1
    revert this
    decide

/-- C2 (amended): `start(role, [])` with a truthy role resets the log to
empty, empties the queue and records the role, but leaves `currentQuestion`
unchanged; consequently the state is `Completed` with `currentQuestion`
absent exactly when no question was pending beforehand. -/
theorem claim2_amended (s : SessionState) (role : String) (h : role ≠ "") :
    (startInterview role [] s).conversation = [] ∧
    (startInterview role [] s).transcripts = [] ∧
    (startInterview role [] s).role = some role ∧
    (startInterview role [] s).current_question = s.current_question ∧
    (s.current_question = none → Completed (startInterview role [] s)) := by
  rw [startInterview_nil role h]
  exact ⟨rfl, rfl, rfl, rfl, fun hc => ⟨hc, rfl⟩⟩

/-- Witness for C2's amended theorem at `initState` and role `"Engineer"`. -/
theorem claim2_witness :
    (startInterview "Engineer" [] initState).conversation = [] ∧
    (startInterview "Engineer" [] initState).transcripts = [] ∧
    (startInterview "Engineer" [] initState).role = some "Engineer" ∧
    (startInterview "Engineer" [] initState).current_question =
      initState.current_question ∧
    (initState.current_question = none →
      Completed (startInterview "Engineer" [] initState)) :=
  claim2_amended initState "Engineer" (by decide)

/-- C5 (counterexample): the claim asserts the alternation/pending-question
invariant in *every* reachable state. The reachable state obtained by
`start("R1", ["Q1"])`, `start("R2", [])`, `submitAnswer("A")` has the
conversation log `[(Candidate, "A")]`, which does not begin with an
Interviewer entry: the stale pending question survives the second start and
its answer is logged into the freshly reset (empty) log. -/
theorem claim5_counterexample :
    Reachable
      (submitAnswer "A" (startInterview "R2" [] (startInterview "R1" ["Q1"] initState))) ∧
    altFrom Speaker.Interviewer
      (submitAnswer "A"
        (startInterview "R2" [] (startInterview "R1" ["Q1"] initState))).conversation =
      false :=
  ⟨Reachable.step_submit "A"
      (Reachable.step_start "R2" []
        (Reachable.step_start "R1" ["Q1"] Reachable.init)),
    by decide⟩

/-- C5 (amended): in every state reachable when each `start` call supplies a
non-empty question list of non-empty questions, the conversation log
alternates Interviewer/Candidate beginning with Interviewer, and a truthy
`current_question` is pending iff the most recent log entry is from the
Interviewer. -/
theorem claim5_amended (s : SessionState) (h : ReachableGood s) :
    altFrom Speaker.Interviewer s.conversation = true ∧
    (pyTruthy s.current_question = true ↔
      lastIsInterviewer s.conversation = true) := by
  obtain ⟨h1, h2, _⟩ := reachableGood_inv s h
  exact ⟨h1, h2.trans (lastIsInterviewer_iff_odd _ h1).symm⟩

/-- Witness for C5's amended theorem at the reachable state
`start("Engineer", ["Q1"])`. -/
theorem claim5_witness :
    altFrom Speaker.Interviewer
      (startInterview "Engineer" ["Q1"] initState).conversation = true ∧
    (pyTruthy (startInterview "Engineer" ["Q1"] initState).current_question = true ↔
      lastIsInterviewer (startInterview "Engineer" ["Q1"] initState).conversation = true) :=
  claim5_amended _
    (ReachableGood.step_start "Engineer" ["Q1"] ReachableGood.init
      (by decide) (by decide))

/-- C6 (counterexample): the claim quantifies over *every* question sequence.
With `Q = [""]` and the non-empty answer `"A1"`, the started session holds
`current_question = some ""`, which is falsy for
`st.session_state.get("current_question")`, so the submit handler never runs:
the final log has length `1`, not `2 * len(Q) = 2`, and the session never
reaches `Completed` (`current_question` stays `some ""`). -/
theorem claim6_counterexample :
    (runSubmits ["A1"] (startInterview "Engineer" [""] initState)).conversation.length = 1 ∧
    (runSubmits ["A1"] (startInterview "Engineer" [""] initState)).current_question =
      some "" := by
  decide

/-- C6 (amended): for every sequence `Q` of *non-empty* questions, starting a
fresh session with a truthy role and then submitting `len(Q)` answers with
non-whitespace text leaves the session `Completed` (`current_question` absent,
queue empty) with log exactly `[(I,q1),(C,a1),...]`, of length `2 * len(Q)`,
alternating from Interviewer, questions in the order supplied. -/
theorem claim6_amended (role : String) (qs answers : List String)
    (hrole : role ≠ "") (hlen : answers.length = qs.length)
    (hq : ∀ q ∈ qs, q ≠ "") (ha : ∀ a ∈ answers, pyStrip a ≠ "") :
    runSubmits answers (startInterview role qs initState) =
      { conversation := interviewLog qs answers, role := some role,
        current_question := none, transcripts := [] } ∧
    (interviewLog qs answers).length = 2 * qs.length ∧
    altFrom Speaker.Interviewer (interviewLog qs answers) = true := by
  refine ⟨?_, interviewLog_length qs answers hlen,
    interviewLog_alternates qs answers⟩
  cases qs with
  | nil =>
    have hans : answers = [] := List.length_eq_zero.mp (by simpa using hlen)
    subst hans
    rw [startInterview_nil role hrole, runSubmits_nil]
    rfl
  | cons q rest =>
    cases answers with
    | nil => exact absurd hlen (by simp)
    | cons a as =>
      have hlen' : as.length = rest.length := by simpa using hlen
      rw [startInterview_cons role hrole]
      rw [runSubmits_pending (a :: as) rest _ q rfl
        (hq q (List.mem_cons_self q rest)) rfl
        (fun q' h' => hq q' (List.mem_cons_of_mem q h'))
        ha (by simp [hlen'])]
      rw [contLog_cons_eq rest as a hlen']
      rfl

/-- Witness for C6's amended theorem at
`start("Engineer", ["Q1","Q2"])`, answers `["A1","A2"]`. -/
theorem claim6_witness :
    runSubmits ["A1", "A2"] (startInterview "Engineer" ["Q1", "Q2"] initState) =
      { conversation := interviewLog ["Q1", "Q2"] ["A1", "A2"],
        role := some "Engineer", current_question := none, transcripts := [] } ∧
    (interviewLog ["Q1", "Q2"] ["A1", "A2"]).length = 2 * (["Q1", "Q2"] : List String).length ∧
    altFrom Speaker.Interviewer (interviewLog ["Q1", "Q2"] ["A1", "A2"]) = true :=
  claim6_amended "Engineer" ["Q1", "Q2"] ["A1", "A2"]
    (by decide) (by decide) (by decide) (by decide)

/-- C7 (confirmed): submitting an answer whose `strip()` is empty never
mutates the session state — either no question is pending (the submit block
is unreachable) or the `if answer.strip():` guard fails and only a warning is
shown. -/
theorem claim7_blank_rejected (s : SessionState) (a : String)
    (h : pyStrip a = "") : submitAnswer a s = s := by
  by_cases hcq : pyTruthy s.current_question = true
  · exact submitAnswer_blank a s hcq h
  · exact submitAnswer_noQuestion a s hcq

/-- Witness for C7 at the whitespace answer `"  "` against a started
session. -/
theorem claim7_witness :
    pyStrip "  " = "" ∧
    submitAnswer "  " (startInterview "Engineer" ["Q1"] initState) =
      startInterview "Engineer" ["Q1"] initState :=
  ⟨by decide, claim7_blank_rejected _ "  " (by decide)⟩

/-- C1 (counterexample): the claim says the ranking never raises, for any
corpus with degenerate descriptions together with *any* resume text including
the empty one. With an empty resume and the one-row corpus whose description
is empty, the combined corpus has an empty vocabulary and `fit_transform`
raises `ValueError` (modelled as `Except.error`), instead of returning a
ranking. -/
theorem claim1_counterexample :
    match_resume_to_roles "" dfDegenerate 3 = .error emptyVocabMsg := by
  have hvoc : vocabOf (corpusOf "" dfDegenerate) = [] := by decide
  rw [match_resume_to_roles, if_neg (guard_false dfDegenerate rfl rfl (by decide)),
    if_pos hvoc]

/-- C1 (amended): over a non-empty corpus with both required columns whose
descriptions are all empty or stop-words-only after tokenization: if the
resume is also degenerate, the vectorizer raises the empty-vocabulary
`ValueError`; if the resume still has at least one countable token, no
exception occurs — every similarity score is exactly `0` and a ranking of
length `min top_n n` is returned. -/
theorem claim1_amended (resume : String) (df : JobDF) (top_n : ℕ)
    (hT : df.hasTitle = true) (hD : df.hasDesc = true) (hne : df.rows ≠ [])
    (h1 : 1 ≤ top_n)
    (hdeg : ∀ r ∈ df.rows, filteredTokens (r.2.getD "") = []) :
    (filteredTokens resume = [] →
      match_resume_to_roles resume df top_n = .error emptyVocabMsg) ∧
    (filteredTokens resume ≠ [] →
      simScores resume df = List.replicate df.rows.length 0 ∧
      ∃ l, match_resume_to_roles resume df top_n = .ok l ∧
        l.length = min top_n df.rows.length) := by
  constructor
  · intro hres
    have hvoc : vocabOf (corpusOf resume df) = [] := by
      apply vocabOf_nil_of_degenerate
      intro d hd
      rw [corpusOf] at hd
      rcases List.mem_append.mp hd with hdl | hdr
      · obtain ⟨r, hr, rfl⟩ := List.mem_map.mp hdl
        exact hdeg r hr
      · rw [List.mem_singleton.mp hdr]
        exact hres
    rw [match_resume_to_roles, if_neg (guard_false df hT hD hne), if_pos hvoc]
  · intro hres
    have hvoc : vocabOf (corpusOf resume df) ≠ [] :=
      vocabOf_ne_nil_of_resume resume df hres
    have hscores : simScores resume df = List.replicate df.rows.length 0 := by
      unfold simScores
      have hall : ∀ d ∈ descsOf df,
          cosineSim (tfidfVec (corpusOf resume df) resume)
            (tfidfVec (corpusOf resume df) d) = 0 := by
        intro d hd
        obtain ⟨r, hr, rfl⟩ := List.mem_map.mp hd
        exact cosineSim_degenerate_right _ _ _ (hdeg r hr)
      rw [List.map_congr_left hall]
      rw [show ∀ l : List String, l.map (fun _ => (0 : ℝ)) = List.replicate l.length 0
        from fun l => List.map_const' l 0]
      simp [descsOf]
    refine ⟨hscores,
      (topIndices resume df top_n).map (fun i => (rolesOf df).getD i "Unknown Role"),
      ?_, ?_⟩
    · rw [match_resume_to_roles, if_neg (guard_false df hT hD hne), if_neg hvoc]
    · rw [List.length_map, topIndices_length _ _ _ (by omega)]

/-- Witness for C1's amended theorem at the resume `"hello"` over
`dfDegenerate`. -/
theorem claim1_witness :
    (filteredTokens "hello" = [] →
      match_resume_to_roles "hello" dfDegenerate 1 = .error emptyVocabMsg) ∧
    (filteredTokens "hello" ≠ [] →
      simScores "hello" dfDegenerate = List.replicate dfDegenerate.rows.length 0 ∧
      ∃ l, match_resume_to_roles "hello" dfDegenerate 1 = .ok l ∧
        l.length = min 1 dfDegenerate.rows.length) :=
  claim1_amended "hello" dfDegenerate 1 rfl rfl (by decide) (by decide) (by decide)

/-- C3 (counterexample): the claim says equal-score ties preserve original
corpus order. Over `dfPair` (two identical descriptions equal to the resume)
the two similarity scores are equal, yet the ranking returned for
`top_n = 2` is `["r1", "r0"]` — the reverse of the corpus order: the ascending
`argsort` places ties in index order and the final `[::-1]` reversal flips
them. -/
theorem claim3_counterexample :
    (simScores "alpha beta" dfPair).getD 0 0 = (simScores "alpha beta" dfPair).getD 1 0 ∧
    match_resume_to_roles "alpha beta" dfPair 2 = .ok ["r1", "r0"] := by
  have hd : descsOf dfPair = ["alpha beta", "alpha beta"] := by decide
  have hs : simScores "alpha beta" dfPair =
      [cosineSim (tfidfVec (corpusOf "alpha beta" dfPair) "alpha beta")
         (tfidfVec (corpusOf "alpha beta" dfPair) "alpha beta"),
       cosineSim (tfidfVec (corpusOf "alpha beta" dfPair) "alpha beta")
         (tfidfVec (corpusOf "alpha beta" dfPair) "alpha beta")] := by
    rw [simScores, hd]
    rfl
  have heq : (simScores "alpha beta" dfPair).getD 0 0 =
      (simScores "alpha beta" dfPair).getD 1 0 := by
    rw [hs]
    rfl
  refine ⟨heq, ?_⟩
  have hlen : (simScores "alpha beta" dfPair).length = 2 := by
    rw [hs]
    rfl
  have hargs : argsort (simScores "alpha beta" dfPair) = [0, 1] :=
    argsort_two _ hlen (Or.inr ⟨heq, by omega⟩)
  have htop : topIndices "alpha beta" dfPair 2 = [1, 0] := by
    rw [topIndices, hargs]
    rfl
  have hvoc : ¬ (vocabOf (corpusOf "alpha beta" dfPair) = []) := by decide
  rw [match_resume_to_roles, if_neg (guard_false dfPair rfl rfl (by decide)),
    if_neg hvoc, htop]
  rfl

/-- C3 (amended): with both required columns present, a non-empty corpus, a
non-empty fitted vocabulary and `top_n ≥ n`, the ranking lists the role of
every corpus entry (the selected indices are a permutation of all of them),
ordered by descending similarity score — but equal-score ties do *not*
preserve original corpus order. numpy's default sort is not stable, so for
corpora of 16 rows or more the tie order is implementation-defined; in the
regime where numpy is deterministic — fewer than 16 rows, where its introsort
is a plain (stable) insertion sort, matched exactly by the `argsort` model —
ties appear in *descending* index order, the reverse of corpus order. -/
theorem claim3_amended (resume : String) (df : JobDF) (top_n : ℕ)
    (hT : df.hasTitle = true) (hD : df.hasDesc = true) (hne : df.rows ≠ [])
    (htop : df.rows.length ≤ top_n)
    (hvoc : vocabOf (corpusOf resume df) ≠ []) :
    match_resume_to_roles resume df top_n =
      .ok ((topIndices resume df top_n).map fun i =>
        (rolesOf df).getD i "Unknown Role") ∧
    (topIndices resume df top_n).Perm (List.range df.rows.length) ∧
    List.Pairwise (fun i j =>
      (simScores resume df).getD j 0 ≤ (simScores resume df).getD i 0)
      (topIndices resume df top_n) ∧
    (df.rows.length < 16 →
      List.Pairwise (fun i j => ascLex (simScores resume df) j i)
        (topIndices resume df top_n)) := by
  have hfull : topIndices resume df top_n =
      (argsort (simScores resume df)).reverse := by
    rw [topIndices, lastSlice_of_ge _ _ (by rw [argsort_length, simScores_length]; omega)]
  have hs := argsort_sorted (simScores resume df)
  rw [List.Sorted] at hs
  refine ⟨by rw [match_resume_to_roles, if_neg (guard_false df hT hD hne), if_neg hvoc],
    ?_, ?_, ?_⟩
  · rw [hfull]
    have hp := (List.reverse_perm (argsort (simScores resume df))).trans
      (argsort_perm (simScores resume df))
    rwa [simScores_length] at hp
  · rw [hfull]
    refine List.pairwise_reverse.mpr (hs.imp ?_)
    intro i j hij
    rcases hij with hlt | ⟨heq, _⟩
    · exact le_of_lt hlt
    · exact le_of_eq heq
  · intro _
    rw [hfull]
    exact List.pairwise_reverse.mpr hs

/-- Witness for C3's amended theorem over the one-row corpus `dfSingle` with
`top_n = 5`. -/
theorem claim3_witness :
    match_resume_to_roles "alpha" dfSingle 5 =
      .ok ((topIndices "alpha" dfSingle 5).map fun i =>
        (rolesOf dfSingle).getD i "Unknown Role") ∧
    (topIndices "alpha" dfSingle 5).Perm (List.range dfSingle.rows.length) ∧
    List.Pairwise (fun i j =>
      (simScores "alpha" dfSingle).getD j 0 ≤ (simScores "alpha" dfSingle).getD i 0)
      (topIndices "alpha" dfSingle 5) ∧
    (dfSingle.rows.length < 16 →
      List.Pairwise (fun i j => ascLex (simScores "alpha" dfSingle) j i)
        (topIndices "alpha" dfSingle 5)) :=
  claim3_amended "alpha" dfSingle 5 rfl rfl (by decide) (by decide) (by decide)

/-- C10 (confirmed): the ranking tolerates missing values — it is unchanged
when every missing description is replaced by `""` and every missing title by
`"Unknown Role"` (`fillDF`), and every returned identifier comes from some
corpus row via `fillna`: an entry with a missing `job_title` that is selected
appears as the literal `"Unknown Role"` rather than failing or being
skipped. -/
theorem claim10_missing_values (resume : String) (df : JobDF) (top_n : ℕ)
    (l : List String) (hok : match_resume_to_roles resume df top_n = .ok l) :
    match_resume_to_roles resume df top_n =
      match_resume_to_roles resume (fillDF df) top_n ∧
    ∀ x ∈ l, ∃ r ∈ df.rows, r.1.getD "Unknown Role" = x := by
  constructor
  · have h1 : (fillDF df).rows.isEmpty = df.rows.isEmpty := by
      unfold fillDF
      cases df.rows <;> rfl
    have h4 : corpusOf resume (fillDF df) = corpusOf resume df := by
      rw [corpusOf, corpusOf, descsOf_fill]
    have h5 : simScores resume (fillDF df) = simScores resume df := by
      unfold simScores
      rw [descsOf_fill, h4]
    have h6 : topIndices resume (fillDF df) top_n = topIndices resume df top_n := by
      unfold topIndices
      rw [h5]
    rw [match_resume_to_roles, match_resume_to_roles, h1, h4, h6, rolesOf_fill]
    rfl
  · intro x hx
    by_cases hguard : (df.rows.isEmpty || !df.hasDesc || !df.hasTitle) = true
    · rw [match_resume_to_roles, if_pos hguard] at hok
      have hl : ([] : List String) = l := Except.ok.inj hok
      rw [← hl] at hx
      exact absurd hx (List.not_mem_nil x)
    · by_cases hvoc : vocabOf (corpusOf resume df) = []
      · rw [match_resume_to_roles, if_neg hguard, if_pos hvoc] at hok
        exact absurd hok (by simp)
      · rw [match_resume_to_roles, if_neg hguard, if_neg hvoc] at hok
        have hl := Except.ok.inj hok
        rw [← hl] at hx
        obtain ⟨i, hi, rfl⟩ := List.mem_map.mp hx
        have hilt : i < df.rows.length := topIndices_mem_lt resume df top_n i hi
        have hlen : i < (rolesOf df).length := by
          rw [rolesOf, List.length_map]
          exact hilt
        rw [List.getD_eq_getElem _ _ hlen]
        have hmem : (rolesOf df)[i] ∈ rolesOf df := List.getElem_mem hlen
        obtain ⟨r, hr, hre⟩ := List.mem_map.mp hmem
        exact ⟨r, hr, hre⟩

/-- Witness for C10 over the non-empty corpus `dfMissing`, whose single row
has a missing `job_title`: the ranking goes through the full `fillna` /
TF-IDF / `argsort` path and returns `["Unknown Role"]`. -/
theorem claim10_witness :
    match_resume_to_roles "alpha" dfMissing 1 =
      match_resume_to_roles "alpha" (fillDF dfMissing) 1 ∧
    ∀ x ∈ ["Unknown Role"],
      ∃ r ∈ dfMissing.rows, r.1.getD "Unknown Role" = x :=
  claim10_missing_values "alpha" dfMissing 1 ["Unknown Role"] (by
    have hvoc : ¬ (vocabOf (corpusOf "alpha" dfMissing) = []) := by decide
    have hlen : (simScores "alpha" dfMissing).length = 1 := by
      rw [simScores_length]
      rfl
    have htop : topIndices "alpha" dfMissing 1 = [0] := by
      rw [topIndices, argsort_one _ hlen]
      rfl
    rw [match_resume_to_roles, if_neg (guard_false dfMissing rfl rfl (by decide)),
      if_neg hvoc, htop]
    rfl)

end CultureMonkey
